import Mathlib

/-
Verification of the RoboADV portfolio-rebalancing engine
(src/streamlit_app.py) against its natural-language specification.

The Python source is shallowly embedded below.  Conventions:

* Money amounts, prices, weights and quantities are modelled as exact
  rationals (ℚ).  Python floats carry rounding error that a rational
  model ignores; every concrete counterexample below was chosen so that
  the float computation in the source is exact (small integers and
  halves), so model and source agree on those runs.
* Python float division by zero yields inf/nan while ℚ division by zero
  yields 0.  The only place this matters is weight normalization when
  the weight sum is 0 (source: weights become ±inf/nan, and the run
  later crashes at int(nan); model: weights become 0).  In both
  semantics the normalized weights do not sum to 1 there, which is the
  only fact used about that case.
* A pandas NaN produced by index alignment or missing data is modelled
  with Option: a MarketRow field that is none stands for a NaN cell,
  and a merge result of none stands for a NaN produced by aligning two
  Series with different indexes.
* Python exceptions (the KeyError from indexing a Series with a missing
  label, the KeyError from set_index("symbol") on an empty DataFrame in
  the merger, the ValueError from an unknown risk profile) are modelled
  with Except String.
* round(x, 2) is modelled as exact round-half-to-even at two decimals
  (Python's round on an exactly representable value).
* int(x) is modelled as truncation toward zero (pyInt), which is what
  Python's int() does on floats.
-/

namespace RoboADV

abbrev Symbol := String

/-- One row of the DataFrame produced by get_market_data.  A field equal
to none models a NaN cell (yfinance returns NaN columns for symbols it
cannot price, so the row exists in the index but holds NaN). -/
structure MarketRow where
  volatility : Option ℚ
  averageReturn : Option ℚ
  price : Option ℚ
  deriving DecidableEq

/-- A market row with no NaN cells, as kept by dropna() (line 59). -/
structure CleanRow where
  volatility : ℚ
  averageReturn : ℚ
  price : ℚ
  deriving DecidableEq

abbrev MarketData := List (Symbol × MarketRow)

/-- Element of the input's available_assets list. -/
structure Asset where
  symbol : Symbol
  deriving DecidableEq

/-- Element of current_portfolio / final_portfolio. -/
structure Position where
  symbol : Symbol
  quantity : ℚ
  deriving DecidableEq

/-- The JSON input document (lines 52-55). -/
structure InputData where
  investment_amount : ℚ
  risk_profile : String
  available_assets : List Asset
  current_portfolio : List Position
  deriving DecidableEq

/-- A sell or buy operation dict (lines 87-92, 106-111). -/
structure Operation where
  symbol : Symbol
  action : String
  quantity : ℚ
  investment : ℚ
  deriving DecidableEq

/-- The "statistics" part of the result (lines 144-149). -/
structure Statistics where
  total_investment : ℚ
  allocation_percent : List (Symbol × ℚ)
  expected_return : Option ℚ
  expected_volatility : Option ℚ
  deriving DecidableEq

/-- The result dict of optimize_portfolio (lines 138-150). -/
structure Result where
  initial_portfolio : List Position
  sell_operations : List Operation
  buy_operations : List Operation
  final_portfolio : List Position
  cash_remaining : ℚ
  statistics : Statistics
  deriving DecidableEq

/-- Label lookup in a pandas Series / indexed DataFrame: the value at
the first row whose label equals s, if any.  A none result corresponds
to a KeyError (or a NaN under alignment) in the source. -/
def seriesGet {α : Type} (s : Symbol) : List (Symbol × α) → Option α
  | [] => none
  | (s', v) :: rest => if s' = s then some v else seriesGet s rest

/-- Round a rational to the nearest integer, ties to even
(Python round / numpy rounding on exact values). -/
def halfEven (x : ℚ) : ℤ :=
  if x - ⌊x⌋ = 1 / 2 then (if ⌊x⌋ % 2 = 0 then ⌊x⌋ else ⌊x⌋ + 1) else round x

/-- round(x, 2) from the source. -/
def round2 (x : ℚ) : ℚ := (halfEven (x * 100) : ℚ) / 100

/-- Python's int() applied to a real value: truncation toward zero. -/
def pyInt (q : ℚ) : ℤ := if 0 ≤ q then ⌊q⌋ else ⌈q⌉

/-- Insert a value into a sorted list (helper for quantile09). -/
def insertSorted (x : ℚ) : List ℚ → List ℚ
  | [] => [x]
  | y :: ys => if x ≤ y then x :: y :: ys else y :: insertSorted x ys

/-- Sort a list of rationals ascending (helper for quantile09). -/
def sortQ (l : List ℚ) : List ℚ := l.foldr insertSorted []

/-- Series.quantile(0.9) with the default linear interpolation
(line 45): with sorted values v and h = 0.9 * (n - 1),
the result is v[floor h] + (h - floor h) * (v[floor h + 1] - v[floor h]). -/
def quantile09 (vs : List ℚ) : ℚ :=
  let s := sortQ vs
  let h : ℚ := 9 * ((s.length : ℚ) - 1) / 10
  let i : ℕ := (⌊h⌋).toNat
  let lo := s.getD i 0
  let hi := s.getD (i + 1) lo
  lo + (h - (⌊h⌋ : ℚ)) * (hi - lo)

/-- The five recognized risk profiles (lines 30-40). -/
def validProfile (p : String) : Bool :=
  p = "conservative" ∨ p = "moderate" ∨ p = "aggressive" ∨ p = "balanced" ∨ p = "growth"

/-- The per-symbol weighting formula of calculate_weights (lines 30-40);
only ever applied under the validProfile guard, so the final branch is
the "growth" formula. -/
def profileWeight (profile : String) (r : CleanRow) : ℚ :=
  if profile = "conservative" then 1 / r.volatility
  else if profile = "moderate" then r.averageReturn / r.volatility
  else if profile = "aggressive" then r.averageReturn
  else if profile = "balanced" then (r.averageReturn + 1 / r.volatility) / 2
  else r.averageReturn * 2 - r.volatility

/-- calculate_weights (lines 29-46): profile dispatch, then the
90th-percentile volatility exclusion
(weights[data.Volatility > data.Volatility.quantile(0.9)] = 0),
else the ValueError of line 42. -/
def calculate_weights (data : List (Symbol × CleanRow)) (profile : String) :
    Except String (List (Symbol × ℚ)) :=
  if validProfile profile then
    .ok (data.map (fun p =>
      (p.1, if p.2.volatility > quantile09 (data.map (fun q => q.2.volatility)) then 0
            else profileWeight profile p.2)))
  else
    .error ("Profilo di rischio non riconosciuto: " ++ profile)

/-- weights /= weights.sum() (line 63).  In ℚ, division by a zero sum
yields 0 where floats yield inf/nan; in both semantics the normalized
weights fail to sum to 1 in that case. -/
def normalizeWeights (ws : List (Symbol × ℚ)) : List (Symbol × ℚ) :=
  ws.map (fun p => (p.1, p.2 / (ws.map Prod.snd).sum))

/-- The liquidation selector (lines 66-72): a position is unsuitable if
its symbol is not in available_assets, or if it is in the market index
and its (normalized) weight is zero.  Looking up the weight of a symbol
that dropna removed raises a KeyError in the source, modelled by
.error. -/
def selectUnsuitable (symbols marketIndex : List Symbol) (nweights : List (Symbol × ℚ)) :
    List Position → Except String (List Position)
  | [] => .ok []
  | pos :: rest =>
    if pos.symbol ∈ symbols then
      if pos.symbol ∈ marketIndex then
        match seriesGet pos.symbol nweights with
        | none => .error ("KeyError: " ++ pos.symbol)
        | some w =>
          if w = 0 then
            match selectUnsuitable symbols marketIndex nweights rest with
            | .error e => .error e
            | .ok tail => .ok (pos :: tail)
          else selectUnsuitable symbols marketIndex nweights rest
      else selectUnsuitable symbols marketIndex nweights rest
    else
      match selectUnsuitable symbols marketIndex nweights rest with
      | .error e => .error e
      | .ok tail => .ok (pos :: tail)

/-- Price resolution for a sell (lines 78-84): batch snapshot price if
the symbol is in the market index, otherwise the single-symbol fallback
lookup (modelled by the function argument; none = the lookup raised),
otherwise 0.  The result is none only when the snapshot row exists but
its Price cell is NaN. -/
def resolveSellPrice (market : MarketData) (fallback : Symbol → Option ℚ) (s : Symbol) :
    Option ℚ :=
  match seriesGet s market with
  | some row => row.price
  | none => some ((fallback s).getD 0)

/-- The sell planner (lines 75-92): one sell operation per unsuitable
position, investment = round(quantity * price, 2), proceeds accumulated.
A NaN snapshot price is modelled as an error (in the source it would
propagate as NaN and crash later at int(nan) in the buy loop whenever
some buy price is positive); no claim exercises that path. -/
def sellPlan (market : MarketData) (fallback : Symbol → Option ℚ) :
    List Position → Except String (List Operation × ℚ)
  | [] => .ok ([], 0)
  | pos :: rest =>
    match resolveSellPrice market fallback pos.symbol with
    | none => .error ("NaN price for " ++ pos.symbol)
    | some price =>
      match sellPlan market fallback rest with
      | .error e => .error e
      | .ok (ops, proceeds) =>
        .ok (⟨pos.symbol, "sell", pos.quantity, round2 (pos.quantity * price)⟩ :: ops,
             round2 (pos.quantity * price) + proceeds)

/-- The buy planner (lines 98-111): for each symbol of available_assets,
allocation = total * weights[symbol] (KeyError if the symbol was dropped
by dropna), quantity = int(allocation / price) if price > 0 else 0,
investment = round(quantity * price, 2); the operation is emitted even
when the quantity is 0, and investments are accumulated. -/
def buyPlan (total : ℚ) (nweights : List (Symbol × ℚ)) (data : List (Symbol × CleanRow)) :
    List Symbol → Except String (List Operation × ℚ)
  | [] => .ok ([], 0)
  | s :: rest =>
    match seriesGet s nweights with
    | none => .error ("KeyError: " ++ s)
    | some w =>
      match seriesGet s data with
      | none => .error ("KeyError: " ++ s)
      | some r =>
        match buyPlan total nweights data rest with
        | .error e => .error e
        | .ok (ops, spent) =>
          .ok (⟨s, "buy",
                ((if 0 < r.price then pyInt (total * w / r.price) else 0 : ℤ) : ℚ),
                round2 (((if 0 < r.price then pyInt (total * w / r.price) else 0 : ℤ) : ℚ) * r.price)⟩ :: ops,
               round2 (((if 0 < r.price then pyInt (total * w / r.price) else 0 : ℤ) : ℚ) * r.price) + spent)

/-- The quantity column of the current portfolio, indexed by symbol
(line 117). -/
def curTblOf (current : List Position) : List (Symbol × ℚ) :=
  current.map (fun p => (p.symbol, p.quantity))

/-- The quantity column of the buy operations, indexed by symbol
(line 118). -/
def buyTblOf (buys : List Operation) : List (Symbol × ℚ) :=
  buys.map (fun o => (o.symbol, o.quantity))

/-- The portfolio merger (lines 117-124).  pd.DataFrame applied to an
empty list has no columns at all, so set_index("symbol") at line 117
raises a KeyError whenever current_portfolio is empty, and likewise at
line 118 whenever the operations list is empty: those runs abort and
return nothing, modelled by .error.  Otherwise: reindex the original
current portfolio over the union of its index with the buy-operation
index, add the two quantity columns (a label missing from the buy side
yields NaN, modelled by none), and keep rows with quantity > 0 (a NaN
row fails the comparison and is dropped).  pandas sorts the union
index; the claims below are insensitive to row order, so the model
keeps first-seen order.  The model assumes label-unique tables
(duplicate labels make the source's reindex raise); the theorems that
need it carry Nodup hypotheses. -/
def mergeFinal (current : List Position) (buys : List Operation) :
    Except String (List Position) :=
  if current.isEmpty then .error "KeyError: symbol"
  else if buys.isEmpty then .error "KeyError: symbol"
  else .ok
    (((curTblOf current).map Prod.fst ++
      ((buyTblOf buys).map Prod.fst).filter
        (fun s => ¬ ((curTblOf current).map Prod.fst).contains s)).filterMap
      (fun s =>
        match seriesGet s (buyTblOf buys) with
        | none => none
        | some bq =>
          if 0 < (seriesGet s (curTblOf current)).getD 0 + bq then
            some ⟨s, (seriesGet s (curTblOf current)).getD 0 + bq⟩
          else none))

/-- Statistics summarizer (lines 127-136, 144-149).  The source indexes
market_data; every final-portfolio symbol produced by the pipeline has a
clean row in data with the same price/return/volatility, and pandas'
NaN-skipping sums make the extra market-only rows irrelevant to every
aggregate (they do add NaN-valued keys to allocation_percent, which no
claim mentions), so the model reads the clean table. -/
def computeStats (final : List Position) (data : List (Symbol × CleanRow)) : Statistics :=
  let allocs := final.map (fun p =>
    (p.symbol, p.quantity * (((seriesGet p.symbol data).map CleanRow.price).getD 0)))
  let total := (allocs.map Prod.snd).sum
  { total_investment := round2 total
    allocation_percent := allocs.map (fun a => (a.1, round2 (a.2 / total * 100)))
    expected_return :=
      if 0 < total then
        some (round2 ((final.map (fun p =>
          p.quantity * (((seriesGet p.symbol data).map CleanRow.price).getD 0) *
            (((seriesGet p.symbol data).map CleanRow.averageReturn).getD 0))).sum / total))
      else none
    expected_volatility :=
      if 0 < total then
        some (round2 ((final.map (fun p =>
          p.quantity * (((seriesGet p.symbol data).map CleanRow.price).getD 0) *
            (((seriesGet p.symbol data).map CleanRow.volatility).getD 0))).sum / total))
      else none }

/-- The symbols of available_assets (line 58). -/
def symbolsOf (input : InputData) : List Symbol :=
  input.available_assets.map Asset.symbol

/-- market_data.loc[symbols].dropna() (line 59): the available symbols
that have a fully non-NaN market row, paired with that row. -/
def dataOf (input : InputData) (market : MarketData) : List (Symbol × CleanRow) :=
  (symbolsOf input).filterMap (fun s =>
    match seriesGet s market with
    | some row =>
      match row.volatility, row.averageReturn, row.price with
      | some v, some a, some p => some (s, CleanRow.mk v a p)
      | _, _, _ => none
    | none => none)

/-- optimize_portfolio (lines 51-150). -/
def optimize_portfolio (input : InputData) (market : MarketData)
    (fallback : Symbol → Option ℚ) : Except String Result :=
  match calculate_weights (dataOf input market) input.risk_profile with
  | .error e => .error e
  | .ok weights =>
    match selectUnsuitable (symbolsOf input) (market.map Prod.fst)
        (normalizeWeights weights) input.current_portfolio with
    | .error e => .error e
    | .ok unsuitable =>
      match sellPlan market fallback unsuitable with
      | .error e => .error e
      | .ok (sells, cashFromSales) =>
        match buyPlan (input.investment_amount + cashFromSales)
            (normalizeWeights weights) (dataOf input market) (symbolsOf input) with
        | .error e => .error e
        | .ok (ops, cashSpent) =>
          match mergeFinal input.current_portfolio ops with
          | .error e => .error e
          | .ok final =>
            .ok { initial_portfolio := input.current_portfolio
                  sell_operations := sells
                  buy_operations := ops
                  final_portfolio := final
                  cash_remaining := round2 (input.investment_amount + cashFromSales - cashSpent)
                  statistics := computeStats final (dataOf input market) }

/-- A fallback price source that always fails (every single-symbol
lookup raises), for concrete runs. -/
def fbNone : Symbol → Option ℚ := fun _ => none

deriving instance DecidableEq for Except

/-- A price is a whole number of cents (100 * q is an integer). -/
def isCent (q : ℚ) : Prop := (⌊q * 100⌋ : ℚ) = q * 100

instance (q : ℚ) : Decidable (isCent q) := by unfold isCent; infer_instance

section Lemmas

theorem seriesGet_eq_some_of_mem {α : Type} {l : List (Symbol × α)} {s : Symbol} {v : α}
    (hmem : (s, v) ∈ l) (hnd : (l.map Prod.fst).Nodup) : seriesGet s l = some v := by
  induction l with
  | nil => cases hmem
  | cons hd tl ih =>
    obtain ⟨s', v'⟩ := hd
    simp only [List.map_cons, List.nodup_cons] at hnd
    rcases List.mem_cons.mp hmem with heq | htl
    · obtain ⟨rfl, rfl⟩ := Prod.mk.injEq .. ▸ heq
      simp [seriesGet]
    · have hs : s' ≠ s := by
        rintro rfl
        exact hnd.1 (List.mem_map.mpr ⟨(s', v), htl, rfl⟩)
      simpa [seriesGet, hs] using ih htl hnd.2

theorem mem_of_seriesGet {α : Type} {l : List (Symbol × α)} {s : Symbol} {v : α}
    (h : seriesGet s l = some v) : (s, v) ∈ l := by
  induction l with
  | nil => simp [seriesGet] at h
  | cons hd tl ih =>
    obtain ⟨s', v'⟩ := hd
    by_cases hs : s' = s
    · simp only [seriesGet, if_pos hs] at h
      injection h with h
      subst hs; subst h
      exact List.mem_cons_self _ _
    · simp only [seriesGet, if_neg hs] at h
      exact List.mem_cons_of_mem _ (ih h)

theorem mem_map_fst_of_seriesGet {α : Type} {l : List (Symbol × α)} {s : Symbol} {v : α}
    (h : seriesGet s l = some v) : s ∈ l.map Prod.fst := by
  induction l with
  | nil => simp [seriesGet] at h
  | cons hd tl ih =>
    obtain ⟨s', v'⟩ := hd
    by_cases hs : s' = s
    · simp [hs]
    · simp only [seriesGet, if_neg hs] at h
      simp [ih h]

theorem round2_nonneg {x : ℚ} (hx : 0 ≤ x) : 0 ≤ round2 x := by
  unfold round2 halfEven
  have h100 : (0 : ℚ) ≤ x * 100 := by positivity
  have hfl : (0 : ℤ) ≤ ⌊x * 100⌋ := Int.floor_nonneg.mpr h100
  have hrd : (0 : ℤ) ≤ round (x * 100) := by
    rw [round_eq]
    exact Int.floor_nonneg.mpr (by linarith)
  split
  · split
    · positivity
    · have : (0 : ℚ) ≤ (⌊x * 100⌋ + 1 : ℤ) := by exact_mod_cast Int.le_add_one hfl
      positivity
  · have : (0 : ℚ) ≤ (round (x * 100) : ℤ) := by exact_mod_cast hrd
    positivity

theorem round2_intCast_div (k : ℤ) : round2 ((k : ℚ) / 100) = (k : ℚ) / 100 := by
  unfold round2 halfEven
  have hk : (k : ℚ) / 100 * 100 = (k : ℚ) := by
    field_simp
  rw [hk]
  have hfl : ⌊(k : ℚ)⌋ = k := Int.floor_intCast k
  rw [hfl]
  have hne : (k : ℚ) - k ≠ 1 / 2 := by
    simp only [sub_self]
    norm_num
  rw [if_neg hne, round_intCast]

theorem isCent_iff {q : ℚ} : isCent q ↔ ∃ k : ℤ, q = (k : ℚ) / 100 := by
  constructor
  · intro h
    exact ⟨⌊q * 100⌋, by rw [h]; field_simp⟩
  · rintro ⟨k, rfl⟩
    unfold isCent
    have hk : (k : ℚ) / 100 * 100 = (k : ℚ) := by field_simp
    rw [hk, Int.floor_intCast]

theorem round2_isCent {q : ℚ} (h : isCent q) : round2 q = q := by
  obtain ⟨k, rfl⟩ := isCent_iff.mp h
  exact round2_intCast_div k

theorem isCent_intMul {p : ℚ} (h : isCent p) (z : ℤ) : isCent ((z : ℚ) * p) := by
  obtain ⟨k, rfl⟩ := isCent_iff.mp h
  exact isCent_iff.mpr ⟨z * k, by push_cast; ring⟩

theorem round2_zero : round2 0 = 0 := by simpa using round2_intCast_div 0

theorem pyInt_mul_le {a p : ℚ} (ha : 0 ≤ a) (hp : 0 < p) : (pyInt (a / p) : ℚ) * p ≤ a := by
  have hq : 0 ≤ a / p := div_nonneg ha hp.le
  unfold pyInt
  rw [if_pos hq]
  have h1 : (⌊a / p⌋ : ℚ) ≤ a / p := Int.floor_le _
  calc (⌊a / p⌋ : ℚ) * p ≤ (a / p) * p := mul_le_mul_of_nonneg_right h1 hp.le
    _ = a := div_mul_cancel₀ a hp.ne'

theorem sum_map_div {α : Type} (l : List (α × ℚ)) (c : ℚ) :
    (l.map (fun p => p.2 / c)).sum = (l.map Prod.snd).sum / c := by
  induction l with
  | nil => simp
  | cons hd tl ih => simp [ih, add_div]

/-- Full characterization of a successful buy-planner run: one buy
operation per symbol in order, each with the quantity/investment
formulas of lines 101-104, and the accumulated cash equal to the sum of
the investments. -/
theorem buyPlan_ok {total : ℚ} {nweights : List (Symbol × ℚ)}
    {data : List (Symbol × CleanRow)} :
    ∀ {symbols : List Symbol} {ops : List Operation} {spent : ℚ},
      buyPlan total nweights data symbols = .ok (ops, spent) →
      ops.map Operation.symbol = symbols ∧
      spent = (ops.map Operation.investment).sum ∧
      ∀ op ∈ ops, ∃ w r, seriesGet op.symbol nweights = some w ∧
        seriesGet op.symbol data = some r ∧
        op.action = "buy" ∧
        op.quantity = ((if 0 < r.price then pyInt (total * w / r.price) else 0 : ℤ) : ℚ) ∧
        op.investment = round2 (op.quantity * r.price) := by
  intro symbols
  induction symbols with
  | nil =>
    intro ops spent h
    simp only [buyPlan, Except.ok.injEq, Prod.mk.injEq] at h
    obtain ⟨rfl, rfl⟩ := h
    simp
  | cons s rest ih =>
    intro ops spent h
    unfold buyPlan at h
    cases hw : seriesGet s nweights with
    | none => rw [hw] at h; cases h
    | some w =>
      rw [hw] at h
      cases hr : seriesGet s data with
      | none => rw [hr] at h; cases h
      | some r =>
        rw [hr] at h
        cases hrec : buyPlan total nweights data rest with
        | error e => rw [hrec] at h; cases h
        | ok pr =>
          obtain ⟨ops', spent'⟩ := pr
          rw [hrec] at h
          simp only [Except.ok.injEq, Prod.mk.injEq] at h
          obtain ⟨rfl, rfl⟩ := h
          obtain ⟨ihsym, ihspent, ihops⟩ := ih hrec
          refine ⟨by simp [ihsym], by simp [ihspent], ?_⟩
          intro op hop
          rcases List.mem_cons.mp hop with rfl | htl
          · exact ⟨w, r, hw, hr, rfl, rfl, rfl⟩
          · exact ihops op htl

/-- A successful buy-planner run spends at most the total cash times the
sum of the looked-up weights, provided weights are nonnegative and
prices are nonnegative whole-cent amounts. -/
theorem buyPlan_spent_le {total : ℚ} {nweights : List (Symbol × ℚ)}
    {data : List (Symbol × CleanRow)}
    (htot : 0 ≤ total) :
    ∀ {symbols : List Symbol} {ops : List Operation} {spent : ℚ},
      (∀ s ∈ symbols, 0 ≤ (seriesGet s nweights).getD 0) →
      (∀ p ∈ data, 0 ≤ p.2.price ∧ isCent p.2.price) →
      buyPlan total nweights data symbols = .ok (ops, spent) →
      spent ≤ total * (symbols.map (fun s => (seriesGet s nweights).getD 0)).sum := by
  intro symbols
  induction symbols with
  | nil =>
    intro ops spent _ _ h
    simp only [buyPlan, Except.ok.injEq, Prod.mk.injEq] at h
    obtain ⟨rfl, rfl⟩ := h
    simp
  | cons s rest ih =>
    intro ops spent hw hp h
    unfold buyPlan at h
    cases hws : seriesGet s nweights with
    | none => rw [hws] at h; cases h
    | some w =>
      rw [hws] at h
      cases hr : seriesGet s data with
      | none => rw [hr] at h; cases h
      | some r =>
        rw [hr] at h
        cases hrec : buyPlan total nweights data rest with
        | error e => rw [hrec] at h; cases h
        | ok pr =>
          obtain ⟨ops', spent'⟩ := pr
          rw [hrec] at h
          simp only [Except.ok.injEq, Prod.mk.injEq] at h
          obtain ⟨rfl, rfl⟩ := h
          have hw0 : 0 ≤ w := by
            have := hw s (List.mem_cons_self s rest)
            rwa [hws, Option.getD_some] at this
          have hpr := hp (s, r) (mem_of_seriesGet hr)
          have halloc : 0 ≤ total * w := mul_nonneg htot hw0
          have hinv : round2 (((if 0 < r.price then pyInt (total * w / r.price) else 0 : ℤ) : ℚ) * r.price) ≤ total * w := by
            rw [round2_isCent (isCent_intMul hpr.2 _)]
            by_cases hpp : 0 < r.price
            · rw [if_pos hpp]
              exact pyInt_mul_le halloc hpp
            · rw [if_neg hpp]
              simp [halloc]
          have htl : spent' ≤ total * (rest.map (fun s => (seriesGet s nweights).getD 0)).sum :=
            ih (fun s hs => hw s (List.mem_cons_of_mem _ hs)) hp hrec
          simp only [List.map_cons, List.sum_cons, hws, Option.getD_some, mul_add]
          exact add_le_add hinv htl

/-- Inversion of a successful optimize_portfolio run into its pipeline
stages. -/
theorem optimize_ok_inv {input : InputData} {market : MarketData}
    {fb : Symbol → Option ℚ} {r : Result}
    (h : optimize_portfolio input market fb = .ok r) :
    ∃ ws unsuitable sells proceeds ops spent final,
      calculate_weights (dataOf input market) input.risk_profile = .ok ws ∧
      selectUnsuitable (symbolsOf input) (market.map Prod.fst) (normalizeWeights ws)
        input.current_portfolio = .ok unsuitable ∧
      sellPlan market fb unsuitable = .ok (sells, proceeds) ∧
      buyPlan (input.investment_amount + proceeds) (normalizeWeights ws)
        (dataOf input market) (symbolsOf input) = .ok (ops, spent) ∧
      mergeFinal input.current_portfolio ops = .ok final ∧
      r = { initial_portfolio := input.current_portfolio
            sell_operations := sells
            buy_operations := ops
            final_portfolio := final
            cash_remaining := round2 (input.investment_amount + proceeds - spent)
            statistics := computeStats final (dataOf input market) } := by
  unfold optimize_portfolio at h
  split at h
  · cases h
  next ws hcw =>
    split at h
    · cases h
    next unsuitable hsel =>
      split at h
      · cases h
      next sells proceeds hsp =>
        split at h
        · cases h
        next ops spent hbp =>
          split at h
          · cases h
          next final hmg =>
            simp only [Except.ok.injEq] at h
            exact ⟨ws, unsuitable, sells, proceeds, ops, spent, final,
              hcw, hsel, hsp, hbp, hmg, h.symm⟩

/-- Every row of a successfully merged final portfolio carries a symbol
that received a buy operation (symbols without a buy row merge to NaN
and are dropped). -/
theorem mergeFinal_symbol_mem {current : List Position} {buys : List Operation}
    {final : List Position} {p : Position}
    (hmg : mergeFinal current buys = .ok final) (h : p ∈ final) :
    p.symbol ∈ buys.map Operation.symbol := by
  unfold mergeFinal at hmg
  split at hmg
  · cases hmg
  split at hmg
  · cases hmg
  injection hmg with hmg
  subst hmg
  obtain ⟨s, hs, hf⟩ := List.mem_filterMap.mp h
  cases hbq : seriesGet s (buyTblOf buys) with
  | none => rw [hbq] at hf; cases hf
  | some bq =>
    rw [hbq] at hf
    have hf' : (if 0 < (seriesGet s (curTblOf current)).getD 0 + bq then
        some (⟨s, (seriesGet s (curTblOf current)).getD 0 + bq⟩ : Position)
        else none) = some p := hf
    by_cases hc : 0 < (seriesGet s (curTblOf current)).getD 0 + bq
    · rw [if_pos hc] at hf'
      have hps : p.symbol = s := by
        injection hf' with hf''
        rw [← hf'']
      rw [hps]
      obtain ⟨o, ho, heq⟩ := List.mem_map.mp (mem_of_seriesGet hbq)
      exact List.mem_map.mpr ⟨o, ho, (Prod.mk.injEq .. ▸ heq).1⟩
    · rw [if_neg hc] at hf'
      cases hf'

/-- In a successful merge, a symbol present in the current portfolio
whose buy row exists merges additively and survives when the sum is
positive. -/
theorem mergeFinal_mem {current : List Position} {buys : List Operation}
    {final : List Position} {s : Symbol} {q bq : ℚ}
    (hmg : mergeFinal current buys = .ok final)
    (hcur : seriesGet s (curTblOf current) = some q)
    (hbuy : seriesGet s (buyTblOf buys) = some bq)
    (hpos : 0 < q + bq) :
    (⟨s, q + bq⟩ : Position) ∈ final := by
  unfold mergeFinal at hmg
  split at hmg
  · cases hmg
  split at hmg
  · cases hmg
  injection hmg with hmg
  subst hmg
  apply List.mem_filterMap.mpr
  refine ⟨s, List.mem_append_left _ (mem_map_fst_of_seriesGet hcur), ?_⟩
  rw [hbuy, hcur]
  simp [hpos]

/-- A symbol of the plan with looked-up weight exactly 0 gets a buy
operation with quantity 0 and investment 0. -/
theorem buyPlan_zero_qty {total : ℚ} {nweights : List (Symbol × ℚ)}
    {data : List (Symbol × CleanRow)} {symbols : List Symbol}
    {ops : List Operation} {spent : ℚ}
    (h : buyPlan total nweights data symbols = .ok (ops, spent))
    {s : Symbol} (hs : s ∈ symbols)
    (hw : seriesGet s nweights = some 0) :
    (⟨s, "buy", 0, 0⟩ : Operation) ∈ ops := by
  obtain ⟨hsym, -, hops⟩ := buyPlan_ok h
  have hmem : s ∈ ops.map Operation.symbol := hsym ▸ hs
  obtain ⟨op, hop, hopsym⟩ := List.mem_map.mp hmem
  obtain ⟨w, row, hw', hr', hact, hqty, hinv⟩ := hops op hop
  rw [hopsym, hw] at hw'
  have hw0 : w = 0 := (Option.some.injEq .. ▸ hw').symm
  subst hw0
  have hq0 : op.quantity = 0 := by
    rw [hqty]
    simp [pyInt, mul_zero, zero_div]
  have hi0 : op.investment = 0 := by
    rw [hinv, hq0, zero_mul, round2_zero]
  obtain ⟨osym, oact, oqty, oinv⟩ := op
  simp only at hopsym hact hq0 hi0
  subst hopsym
  subst hact
  subst hq0
  subst hi0
  exact hop

end Lemmas

set_option maxRecDepth 100000

section ConcreteInputs

/-- The spec §8 scenario: conservative profile, A (vol 0.1, return 0.08,
price 100), B (vol 0.5, return 0.2, price 50), budget 1000, empty
current portfolio. -/
def inputScenario : InputData := ⟨1000, "conservative", [⟨"A"⟩, ⟨"B"⟩], []⟩

def marketScenario : MarketData :=
  [("A", ⟨some (1/10), some (2/25), some 100⟩), ("B", ⟨some (1/2), some (1/5), some 50⟩)]

/-- Growth-profile request whose raw weights are {A: 3, B: -1}
(both volatilities equal 1, so the percentile rule excludes nothing),
normalized to {A: 3/2, B: -1/2}.  The current portfolio holds one
share of A, which is suitable (nonzero weight) and therefore kept, so
the non-empty frames pass the line 117/118 merge and the run returns a
result. -/
def inputGrowth : InputData := ⟨1000, "growth", [⟨"A"⟩, ⟨"B"⟩], [⟨"A", 1⟩]⟩

def marketGrowth : MarketData :=
  [("A", ⟨some 1, some 2, some 1⟩), ("B", ⟨some 1, some 0, some 1000⟩)]

/-- Request where symbol B is in available_assets but its market row is
all NaN (as yfinance returns for a symbol with no history). -/
def inputMissing : InputData := ⟨1000, "conservative", [⟨"A"⟩, ⟨"B"⟩], []⟩

def marketMissing : MarketData :=
  [("A", ⟨some 1, some 1, some 10⟩), ("B", ⟨none, none, none⟩)]

/-- The scenario market with a zero-quantity current position in B,
whose weight the percentile rule forces to zero. -/
def inputZeroQty : InputData := ⟨1000, "conservative", [⟨"A"⟩, ⟨"B"⟩], [⟨"B", 0⟩]⟩

/-- One-asset request holding two shares of the (kept) asset A, used by
the witnesses; the run completes and buys 10 more shares of A. -/
def inputOne : InputData := ⟨100, "aggressive", [⟨"A"⟩], [⟨"A", 2⟩]⟩

def marketOne : MarketData := [("A", ⟨some 1, some 2, some 10⟩)]

/-- A request holding one share of B, which is available but whose
weight the percentile rule forces to zero (vol 5 against the 0.9
quantile 4.6 of {1, 5}): B is sold, yet its original quantity survives
the additive merge. -/
def inputKept : InputData := ⟨300, "conservative", [⟨"A"⟩, ⟨"B"⟩], [⟨"B", 1⟩]⟩

def marketKept : MarketData :=
  [("A", ⟨some 1, some 0, some 100⟩), ("B", ⟨some 5, some 0, some 100⟩)]

/-- The full result of running inputKept against marketKept. -/
def resultKept : Result :=
  ⟨[⟨"B", 1⟩], [⟨"B", "sell", 1, 100⟩],
   [⟨"A", "buy", 4, 400⟩, ⟨"B", "buy", 0, 0⟩],
   [⟨"B", 1⟩, ⟨"A", 4⟩], 0,
   ⟨500, [("B", 20), ("A", 80)], some 0, some (9/5)⟩⟩

/-- The full result of running inputOne against marketOne: the held 2
shares merge with the 10 bought shares. -/
def resultOne : Result :=
  ⟨[⟨"A", 2⟩], [], [⟨"A", "buy", 10, 100⟩], [⟨"A", 12⟩], 0,
   ⟨120, [("A", 100)], some 2, some 1⟩⟩

end ConcreteInputs

/-- Claim C9: for every symbol with volatility > 0 the raw weight is the
profile's formula: 1/volatility (conservative),
averageReturn/volatility (moderate), averageReturn (aggressive),
(averageReturn + 1/volatility)/2 (balanced), and
averageReturn * 2 - volatility (growth). -/
theorem weight_formulas (r : CleanRow) (_hv : 0 < r.volatility) :
    profileWeight "conservative" r = 1 / r.volatility ∧
    profileWeight "moderate" r = r.averageReturn / r.volatility ∧
    profileWeight "aggressive" r = r.averageReturn ∧
    profileWeight "balanced" r = (r.averageReturn + 1 / r.volatility) / 2 ∧
    profileWeight "growth" r = r.averageReturn * 2 - r.volatility := by
  refine ⟨?_, ?_, ?_, ?_, ?_⟩ <;> simp [profileWeight]

/-- Witness for weight_formulas at the concrete row
(volatility 2, averageReturn 3, price 5). -/
theorem weight_formulas_witness :
    profileWeight "conservative" ⟨2, 3, 5⟩ = 1 / 2 ∧
    profileWeight "moderate" ⟨2, 3, 5⟩ = 3 / 2 ∧
    profileWeight "aggressive" ⟨2, 3, 5⟩ = 3 ∧
    profileWeight "balanced" ⟨2, 3, 5⟩ = (3 + 1 / 2) / 2 ∧
    profileWeight "growth" ⟨2, 3, 5⟩ = 3 * 2 - 2 :=
  weight_formulas ⟨2, 3, 5⟩ (by norm_num)

/-- Claim C10: an unrecognized risk profile makes the whole calculation
fail with the invalid-profile error, and no result (hence no sell
operations, buy operations or statistics) is produced. -/
theorem invalid_profile_fails (input : InputData) (market : MarketData)
    (fb : Symbol → Option ℚ) (h : validProfile input.risk_profile = false) :
    optimize_portfolio input market fb =
      .error ("Profilo di rischio non riconosciuto: " ++ input.risk_profile) ∧
    ∀ res : Result, optimize_portfolio input market fb ≠ .ok res := by
  have hcw : calculate_weights (dataOf input market) input.risk_profile =
      .error ("Profilo di rischio non riconosciuto: " ++ input.risk_profile) := by
    simp [calculate_weights, h]
  have hmain : optimize_portfolio input market fb =
      .error ("Profilo di rischio non riconosciuto: " ++ input.risk_profile) := by
    unfold optimize_portfolio
    rw [hcw]
  refine ⟨hmain, fun res hres => ?_⟩
  rw [hmain] at hres
  cases hres

/-- Witness for invalid_profile_fails at the profile "speculative". -/
theorem invalid_profile_fails_witness :
    optimize_portfolio ⟨100, "speculative", [], []⟩ [] fbNone =
      .error ("Profilo di rischio non riconosciuto: " ++ "speculative") :=
  (invalid_profile_fails ⟨100, "speculative", [], []⟩ [] fbNone
    (by with_unfolding_all decide)).1

/-- Claim C8: a successful sell-planner run emits exactly one sell
operation per unsuitable position, with the price resolved as snapshot
price / fallback lookup / 0 (resolveSellPrice), investment
round(quantity * price, 2), and the proceeds are the sum of the sale
investments. -/
theorem sellPlan_spec (market : MarketData) (fb : Symbol → Option ℚ) :
    ∀ (positions : List Position) (ops : List Operation) (proceeds : ℚ),
      sellPlan market fb positions = .ok (ops, proceeds) →
      ops = positions.map (fun pos =>
        { symbol := pos.symbol, action := "sell", quantity := pos.quantity,
          investment :=
            round2 (pos.quantity * ((resolveSellPrice market fb pos.symbol).getD 0)) }) ∧
      proceeds = (ops.map Operation.investment).sum := by
  intro positions
  induction positions with
  | nil =>
    intro ops proceeds h
    simp only [sellPlan, Except.ok.injEq, Prod.mk.injEq] at h
    obtain ⟨rfl, rfl⟩ := h
    simp
  | cons pos rest ih =>
    intro ops proceeds h
    unfold sellPlan at h
    cases hp : resolveSellPrice market fb pos.symbol with
    | none => rw [hp] at h; cases h
    | some price =>
      rw [hp] at h
      cases hrec : sellPlan market fb rest with
      | error e => rw [hrec] at h; cases h
      | ok pr =>
        obtain ⟨ops', proceeds'⟩ := pr
        rw [hrec] at h
        simp only [Except.ok.injEq, Prod.mk.injEq] at h
        obtain ⟨rfl, rfl⟩ := h
        obtain ⟨iho, ihp⟩ := ih ops' proceeds' hrec
        subst iho
        refine ⟨by simp [hp], by simp [ihp, hp]⟩

/-- Witness for sellPlan_spec: position A (quantity 2) priced from the
snapshot at 10, position B (quantity 3) absent from the snapshot with a
failing fallback, priced 0; proceeds 20. -/
theorem sellPlan_spec_witness :
    ([⟨"A", "sell", 2, 20⟩, ⟨"B", "sell", 3, 0⟩] : List Operation) =
      ([⟨"A", 2⟩, ⟨"B", 3⟩] : List Position).map (fun pos =>
        { symbol := pos.symbol, action := "sell", quantity := pos.quantity,
          investment :=
            round2 (pos.quantity * ((resolveSellPrice marketOne fbNone pos.symbol).getD 0)) }) ∧
    (20 : ℚ) = (([⟨"A", "sell", 2, 20⟩, ⟨"B", "sell", 3, 0⟩] : List Operation).map
      Operation.investment).sum :=
  sellPlan_spec marketOne fbNone [⟨"A", 2⟩, ⟨"B", 3⟩] _ _ (by with_unfolding_all decide)

/-- Claim C3: for every valid profile and candidate table with distinct
symbols, a symbol whose raw weight is nonzero gets final weight zero
exactly when its volatility strictly exceeds the 0.9 quantile of the
volatilities of this call's candidate table. -/
theorem forced_zero_iff (data : List (Symbol × CleanRow)) (profile : String)
    (s : Symbol) (r : CleanRow) (ws : List (Symbol × ℚ))
    (hv : validProfile profile = true)
    (hnd : (data.map Prod.fst).Nodup)
    (hmem : (s, r) ∈ data)
    (hnz : profileWeight profile r ≠ 0)
    (hws : calculate_weights data profile = .ok ws) :
    seriesGet s ws = some 0 ↔
      r.volatility > quantile09 (data.map (fun p => p.2.volatility)) := by
  have hws' : ws = data.map (fun p =>
      (p.1, if p.2.volatility > quantile09 (data.map (fun q => q.2.volatility)) then 0
            else profileWeight profile p.2)) := by
    unfold calculate_weights at hws
    rw [if_pos hv] at hws
    exact (Except.ok.injEq .. ▸ hws).symm
  have hget : seriesGet s ws =
      some (if r.volatility > quantile09 (data.map (fun q => q.2.volatility)) then 0
            else profileWeight profile r) := by
    rw [hws']
    apply seriesGet_eq_some_of_mem
    · exact List.mem_map.mpr ⟨(s, r), hmem, rfl⟩
    · simpa [List.map_map, Function.comp] using hnd
  rw [hget]
  constructor
  · intro h0
    by_contra hq
    rw [if_neg hq] at h0
    exact hnz (Option.some.injEq .. ▸ h0)
  · intro hq
    rw [if_pos hq]

/-- Witness for forced_zero_iff: conservative profile over
{A: vol 1, B: vol 5}; the 0.9 quantile is 4.6, so B (nonzero raw weight
1/5) is forced to zero and indeed 5 > 4.6. -/
theorem forced_zero_iff_witness :
    (⟨5, 2, 3⟩ : CleanRow).volatility >
      quantile09 (([("A", ⟨1, 2, 3⟩), ("B", ⟨5, 2, 3⟩)] :
        List (Symbol × CleanRow)).map (fun p => p.2.volatility)) :=
  (forced_zero_iff [("A", ⟨1, 2, 3⟩), ("B", ⟨5, 2, 3⟩)] "conservative" "B" ⟨5, 2, 3⟩
    [("A", 1), ("B", 0)] (by with_unfolding_all decide) (by with_unfolding_all decide)
    (by with_unfolding_all decide) (by with_unfolding_all decide)
    (by with_unfolding_all decide)).mp (by with_unfolding_all decide)

/-- Claim C4 counterexample: growth profile over two symbols of equal
volatility with raw weights 3 and -3.  Both eligible symbols have
nonzero weight, yet after the weights /= weights.sum() normalization of
line 63 the weights do not sum to 1 (the sum is zero: in the source the
division yields inf and -inf and the sum is nan; in the rational model the
division yields 0; in both semantics the sum differs from 1). -/
theorem normalized_sum_ne_one :
    calculate_weights [("A", ⟨1, 2, 10⟩), ("B", ⟨1, -1, 10⟩)] "growth" =
      .ok [("A", 3), ("B", -3)] ∧
    ("A", (3 : ℚ)) ∈ ([("A", 3), ("B", -3)] : List (Symbol × ℚ)) ∧ (3 : ℚ) ≠ 0 ∧
    ((normalizeWeights [("A", 3), ("B", -3)]).map Prod.snd).sum ≠ 1 := by
  with_unfolding_all decide

/-- Claim C4 amended: whenever the SUM of the post-exclusion weights is
nonzero (not merely some single weight), the normalized weights sum to
exactly 1. -/
theorem normalized_sum_eq_one (ws : List (Symbol × ℚ))
    (h : (ws.map Prod.snd).sum ≠ 0) :
    ((normalizeWeights ws).map Prod.snd).sum = 1 := by
  unfold normalizeWeights
  rw [List.map_map]
  have hcomp : (Prod.snd ∘ fun p : Symbol × ℚ => (p.1, p.2 / (ws.map Prod.snd).sum)) =
      fun p : Symbol × ℚ => p.2 / (ws.map Prod.snd).sum := rfl
  rw [hcomp, sum_map_div, div_self h]

/-- Witness for normalized_sum_eq_one at weights {A: 3, B: 1}. -/
theorem normalized_sum_eq_one_witness :
    ((normalizeWeights [("A", 3), ("B", 1)]).map Prod.snd).sum = 1 :=
  normalized_sum_eq_one [("A", 3), ("B", 1)] (by with_unfolding_all decide)

/-- Claim C2 counterexample: in the spec §8 scenario the 0.9 quantile of
the volatilities {0.1, 0.5} is 0.46 (pandas linear interpolation), so B
IS excluded by the percentile rule — calculate_weights returns
{A: 10, B: 0}, not the claimed {A: 10, B: 2}, and B's normalized weight
is 0, not 1/6. -/
theorem scenario_B_excluded :
    quantile09 [1/10, 1/2] = 23/50 ∧
    dataOf inputScenario marketScenario =
      [("A", ⟨1/10, 2/25, 100⟩), ("B", ⟨1/2, 1/5, 50⟩)] ∧
    calculate_weights (dataOf inputScenario marketScenario) "conservative" =
      .ok [("A", 10), ("B", 0)] ∧
    seriesGet "B" (normalizeWeights [("A", 10), ("B", 0)]) = some 0 ∧
    ((0 : ℚ) ≠ 1/6) := by
  with_unfolding_all decide

/-- Claim C2 amended: B is excluded by the 90th-percentile rule, the
weights after exclusion are {A: 10, B: 0}, normalized {A: 1, B: 0},
and the buy planner computes quantities int(totalCash * weight /
price): 10 shares of A (1000 spent) and 0 shares of B — but the
scenario's empty current portfolio then makes line 117
(pd.DataFrame([]).set_index("symbol")) raise, so the run ABORTS at the
final-portfolio merge and returns no result. -/
theorem scenario_run :
    calculate_weights (dataOf inputScenario marketScenario) inputScenario.risk_profile =
      .ok [("A", 10), ("B", 0)] ∧
    normalizeWeights [("A", 10), ("B", 0)] = [("A", 1), ("B", 0)] ∧
    buyPlan 1000 (normalizeWeights [("A", 10), ("B", 0)])
      (dataOf inputScenario marketScenario) (symbolsOf inputScenario) =
      .ok ([⟨"A", "buy", 10, 1000⟩, ⟨"B", "buy", 0, 0⟩], 1000) ∧
    optimize_portfolio inputScenario marketScenario fbNone = .error "KeyError: symbol" := by
  with_unfolding_all decide

/-- Claim C1 counterexample: a growth-profile request with nonnegative
investment amount (1000) and nonnegative prices (1 and 1000) whose raw
weights are {A: 3, B: -1}; the normalized weight 3/2 of A allocates
1500 to it, int(-500/1000) = 0 shares of B are bought, and the run
completes (the held suitable share of A keeps both merge frames
non-empty) returning cash_remaining = -500 < 0. -/
theorem cash_remaining_negative :
    (0 : ℚ) ≤ inputGrowth.investment_amount ∧
    (∀ p ∈ dataOf inputGrowth marketGrowth, 0 ≤ p.2.price) ∧
    (optimize_portfolio inputGrowth marketGrowth fbNone).toOption.map Result.cash_remaining =
      some (-500) ∧
    ¬ (0 : ℚ) ≤ (-500 : ℚ) := by
  with_unfolding_all decide

/-- Claim C1 amended: when the total cash is nonnegative, the weights
looked up for the planned symbols are nonnegative and sum to at most 1,
and all prices in the clean table are nonnegative whole-cent amounts,
then the cash spent by the buy planner equals the sum of the buy
investments, never exceeds the total cash, and the returned
cash_remaining = round2(totalCash - spent) is nonnegative. -/
theorem buy_cash_nonneg (total : ℚ) (nweights : List (Symbol × ℚ))
    (data : List (Symbol × CleanRow)) (symbols : List Symbol)
    (ops : List Operation) (spent : ℚ)
    (htot : 0 ≤ total)
    (hw : ∀ s ∈ symbols, 0 ≤ (seriesGet s nweights).getD 0)
    (hsum : (symbols.map (fun s => (seriesGet s nweights).getD 0)).sum ≤ 1)
    (hp : ∀ p ∈ data, 0 ≤ p.2.price ∧ isCent p.2.price)
    (h : buyPlan total nweights data symbols = .ok (ops, spent)) :
    spent = (ops.map Operation.investment).sum ∧ spent ≤ total ∧
      0 ≤ total - spent ∧ 0 ≤ round2 (total - spent) := by
  obtain ⟨-, hspent, -⟩ := buyPlan_ok h
  have hle := buyPlan_spent_le htot hw hp h
  have h1 : total * (symbols.map (fun s => (seriesGet s nweights).getD 0)).sum ≤ total * 1 :=
    mul_le_mul_of_nonneg_left hsum htot
  have h2 : spent ≤ total := by
    rw [mul_one] at h1
    linarith
  exact ⟨hspent, h2, by linarith, round2_nonneg (by linarith)⟩

/-- Witness for buy_cash_nonneg: total 10, weight 1 on A, price 3:
3 shares are bought for 9 and round2(10 - 9) = 1 ≥ 0. -/
theorem buy_cash_nonneg_witness :
    (9 : ℚ) = (([⟨"A", "buy", 3, 9⟩] : List Operation).map Operation.investment).sum ∧
    (9 : ℚ) ≤ 10 ∧ (0 : ℚ) ≤ 10 - 9 ∧ (0 : ℚ) ≤ round2 (10 - 9) :=
  buy_cash_nonneg 10 [("A", 1)] [("A", ⟨1, 1, 3⟩)] ["A"] [⟨"A", "buy", 3, 9⟩] 9
    (by norm_num) (by with_unfolding_all decide) (by with_unfolding_all decide)
    (by with_unfolding_all decide) (by with_unfolding_all decide)

/-- Claim C5: symbol B of available_assets has no usable statistics row
(all-NaN), so dropna excludes it from the clean table and from weight
calculation — but the buy loop of line 100 iterates over ALL available
symbols and the lookup weights["B"] of line 101 raises a KeyError, so
the run ABORTS instead of completing as the spec requires.  The slip is
iterating symbols instead of the dropna-filtered index. -/
theorem missing_symbol_aborts :
    dataOf inputMissing marketMissing = [("A", ⟨1, 1, 10⟩)] ∧
    calculate_weights (dataOf inputMissing marketMissing) "conservative" = .ok [("A", 1)] ∧
    optimize_portfolio inputMissing marketMissing fbNone = .error ("KeyError: " ++ "B") := by
  with_unfolding_all decide

/-- Claim C6 counterexample: a current position in B with quantity 0; B
is available with weight forced to 0, so it is sold (one sell operation
is emitted), its merged quantity is 0 + 0 = 0, and the quantity > 0
filter of line 124 drops it — the sold position does NOT appear in
final_portfolio, so the claim's "still appears at its original
quantity" fails for zero-quantity positions. -/
theorem zero_qty_sold_dropped :
    optimize_portfolio inputZeroQty marketScenario fbNone = .ok
      { initial_portfolio := [⟨"B", 0⟩]
        sell_operations := [⟨"B", "sell", 0, 0⟩]
        buy_operations := [⟨"A", "buy", 10, 1000⟩, ⟨"B", "buy", 0, 0⟩]
        final_portfolio := [⟨"A", 10⟩]
        cash_remaining := 0
        statistics := { total_investment := 1000, allocation_percent := [("A", 100)],
                        expected_return := some (2/25),
                        expected_volatility := some (1/10) } } ∧
    "B" ∉ (([⟨"A", (10 : ℚ)⟩] : List Position).map Position.symbol) := by
  with_unfolding_all decide

/-- Claim C6 amended: the merger adds buy quantities onto the ORIGINAL
current portfolio and never subtracts; a position with strictly
positive quantity that is sold because its symbol is available with
weight exactly zero still appears in final_portfolio at its original
quantity (its buy quantity is zero), while a position whose symbol is
outside available_assets disappears from final_portfolio because its
merged quantity is undefined (no buy row exists for it), not by
subtraction.  Zero-quantity sold positions are dropped by the
quantity > 0 filter. -/
theorem merge_adds_onto_original (input : InputData) (market : MarketData)
    (fb : Symbol → Option ℚ) (r : Result) (ws : List (Symbol × ℚ))
    (hndcur : (input.current_portfolio.map Position.symbol).Nodup)
    (hndsym : (symbolsOf input).Nodup)
    (hws : calculate_weights (dataOf input market) input.risk_profile = .ok ws)
    (hok : optimize_portfolio input market fb = .ok r)
    (pos : Position) (hpos : pos ∈ input.current_portfolio) :
    (pos.symbol ∉ symbolsOf input → pos.symbol ∉ r.final_portfolio.map Position.symbol) ∧
    (pos.symbol ∈ symbolsOf input →
      seriesGet pos.symbol (normalizeWeights ws) = some 0 →
      0 < pos.quantity →
      (⟨pos.symbol, pos.quantity⟩ : Position) ∈ r.final_portfolio) := by
  obtain ⟨ws', unsuit, sells, proceeds, ops, spent, final, hws', hsel, hsp, hbp, hmg, hr⟩ :=
    optimize_ok_inv hok
  rw [hws] at hws'
  injection hws' with hwseq
  subst hwseq
  subst hr
  obtain ⟨hsym, -, -⟩ := buyPlan_ok hbp
  constructor
  · intro hout hmem
    obtain ⟨p, hp, hpsym⟩ := List.mem_map.mp hmem
    have hbs := mergeFinal_symbol_mem hmg hp
    rw [hpsym, hsym] at hbs
    exact hout hbs
  · intro hin hw0 hq
    have hcur : seriesGet pos.symbol (curTblOf input.current_portfolio) =
        some pos.quantity := by
      apply seriesGet_eq_some_of_mem
      · exact List.mem_map.mpr ⟨pos, hpos, rfl⟩
      · simpa [curTblOf, List.map_map, Function.comp] using hndcur
    have hbuyop : (⟨pos.symbol, "buy", 0, 0⟩ : Operation) ∈ ops :=
      buyPlan_zero_qty hbp hin hw0
    have hbuy : seriesGet pos.symbol (buyTblOf ops) = some 0 := by
      apply seriesGet_eq_some_of_mem
      · exact List.mem_map.mpr ⟨_, hbuyop, rfl⟩
      · have hfst : (buyTblOf ops).map Prod.fst = ops.map Operation.symbol := by
          simp [buyTblOf, List.map_map, Function.comp]
        rw [hfst, hsym]
        exact hndsym
    have hm := mergeFinal_mem hmg hcur hbuy (by rw [add_zero]; exact hq)
    have hq0 : pos.quantity + 0 = pos.quantity := add_zero _
    rw [hq0] at hm
    exact hm

/-- Witness for merge_adds_onto_original: inputKept holds 1 share of
B, which is available with weight forced to 0; the run sells B yet
final_portfolio still contains B at quantity 1. -/
theorem merge_adds_onto_original_witness :
    ("B" ∉ symbolsOf inputKept → "B" ∉ resultKept.final_portfolio.map Position.symbol) ∧
    ("B" ∈ symbolsOf inputKept →
      seriesGet "B" (normalizeWeights [("A", 1), ("B", 0)]) = some 0 →
      (0 : ℚ) < 1 →
      (⟨"B", 1⟩ : Position) ∈ resultKept.final_portfolio) :=
  merge_adds_onto_original inputKept marketKept fbNone resultKept [("A", 1), ("B", 0)]
    (by with_unfolding_all decide) (by with_unfolding_all decide)
    (by with_unfolding_all decide) (by with_unfolding_all decide)
    ⟨"B", 1⟩ (by with_unfolding_all decide)

/-- Claim C7 counterexample: on the growth request (whose held share of
A keeps the merge frames non-empty, so the run completes and returns
its operations) the buy loop uses int(allocation / price), truncation
toward zero, not floor: for B the allocation is 1000 * (-1/2) = -500
at price 1000, floor of -1/2 is -1, yet the returned operation has
quantity 0. -/
theorem buy_quantity_not_floor :
    calculate_weights (dataOf inputGrowth marketGrowth) "growth" =
      .ok [("A", 3), ("B", -1)] ∧
    normalizeWeights [("A", 3), ("B", -1)] = [("A", 3/2), ("B", -(1/2))] ∧
    (optimize_portfolio inputGrowth marketGrowth fbNone).toOption.map Result.buy_operations =
      some [⟨"A", "buy", 1500, 1500⟩, ⟨"B", "buy", 0, 0⟩] ∧
    (⌊(1000 : ℚ) * (-(1/2)) / 1000⌋ : ℤ) = -1 ∧ ((0 : ℚ) ≠ ((-1 : ℤ) : ℚ)) := by
  with_unfolding_all decide

/-- Claim C7 amended: in every successful run, with the computed
weights ws and sale proceeds named, the buy planner works over
totalCash = investment_amount + proceeds and emits one buy operation
per available symbol (in order, even when the quantity is 0) with
action "buy", quantity = int(totalCash * weight / price) when
price > 0 and 0 otherwise — int() truncates toward zero, which agrees
with floor exactly when the allocation is nonnegative —
investment = round(quantity * price, 2), and
cash_remaining = round(totalCash - sum of buy investments, 2). -/
theorem buy_planner_spec (input : InputData) (market : MarketData)
    (fb : Symbol → Option ℚ) (r : Result) (ws : List (Symbol × ℚ))
    (unsuit : List Position) (proceeds : ℚ)
    (hws : calculate_weights (dataOf input market) input.risk_profile = .ok ws)
    (hsel : selectUnsuitable (symbolsOf input) (market.map Prod.fst) (normalizeWeights ws)
      input.current_portfolio = .ok unsuit)
    (hsp : sellPlan market fb unsuit = .ok (r.sell_operations, proceeds))
    (hok : optimize_portfolio input market fb = .ok r) :
    r.buy_operations.map Operation.symbol = symbolsOf input ∧
    r.cash_remaining = round2 (input.investment_amount + proceeds -
      (r.buy_operations.map Operation.investment).sum) ∧
    ∀ op ∈ r.buy_operations, ∃ w row,
      seriesGet op.symbol (normalizeWeights ws) = some w ∧
      seriesGet op.symbol (dataOf input market) = some row ∧
      op.action = "buy" ∧
      op.quantity = ((if 0 < row.price then
        pyInt ((input.investment_amount + proceeds) * w / row.price) else 0 : ℤ) : ℚ) ∧
      op.investment = round2 (op.quantity * row.price) := by
  obtain ⟨ws', unsuit', sells', proceeds', ops, spent, final, hws', hsel', hsp', hbp, hmg, hr⟩ :=
    optimize_ok_inv hok
  rw [hws] at hws'
  injection hws' with hwseq
  subst hwseq
  rw [hsel] at hsel'
  injection hsel' with huns
  subst huns
  rw [hsp] at hsp'
  injection hsp' with hpair
  have hproc : proceeds = proceeds' := congrArg Prod.snd hpair
  subst hproc
  subst hr
  obtain ⟨hsym, hspent, hops⟩ := buyPlan_ok hbp
  refine ⟨hsym, ?_, ?_⟩
  · show round2 (input.investment_amount + proceeds - spent) =
      round2 (input.investment_amount + proceeds - (ops.map Operation.investment).sum)
    rw [hspent]
  · intro op hop
    exact hops op hop

/-- Witness for buy_planner_spec: the one-asset run of inputOne (no
sells, proceeds 0) has its single buy operation covering the available
symbols and cash_remaining = round2(100 + 0 - 100). -/
theorem buy_planner_spec_witness :
    resultOne.buy_operations.map Operation.symbol = symbolsOf inputOne ∧
    resultOne.cash_remaining = round2 (inputOne.investment_amount + 0 -
      (resultOne.buy_operations.map Operation.investment).sum) := by
  obtain ⟨h1, h2, -⟩ := buy_planner_spec inputOne marketOne fbNone resultOne [("A", 2)] [] 0
    (by with_unfolding_all decide) (by with_unfolding_all decide)
    (by with_unfolding_all decide) (by with_unfolding_all decide)
  exact ⟨h1, h2⟩

end RoboADV
